import Mathlib

set_option maxHeartbeats 1000000

/-!
Verification of the Omega adaptive searcher, builder and streamer of the
zvec vector index (src/core/algorithm/omega).  The definitions below are a
shallow embedding of the C++ source: pure control flow is translated
directly, the per-query predictor handle is kept opaque behind a record of
operations, machine floats (dist_t) are modelled as exact rationals, and
the collaborating classes that are not part of the analysed sources
(HnswSearcher, HnswContext and its heaps) are modelled from the
specification, as marked in their doc comments.
-/

namespace ZvecOmega

/-- Node identifier (node_id_t in the source, a 32-bit id). -/
abbrev NodeId := Nat

/-- Reserved invalid node id (kInvalidNodeId, 0xFFFFFFFF). -/
def kInvalidNodeId : NodeId := 4294967295

/-- Distance value (dist_t); modelled as a rational so that the strict
comparisons performed by the search loops are exact. -/
abbrev Dist := ℚ

/-- Opaque handle to a loaded OMEGA model (OmegaModelHandle). -/
abbrev ModelHandle := Nat

/-- Read-only view of the loaded graph as used by
OmegaSearcher::adaptive_search: current max level (entity.cur_max_level),
entry point (entity.entry_point), per-level neighbour lists
(entity.get_neighbors), and the success predicate of the batched
entity.get_vector fetch: a fetch of a given id batch either returns 0
(success) or a nonzero error, deterministically per batch. -/
structure Graph where
  maxLevel : Nat
  entryPoint : NodeId
  nbrs : Nat → NodeId → List NodeId
  fetchOk : List NodeId → Bool

/-- One pass over a neighbour list during the upper-layer descent
(omega_searcher.cc lines 190-199): walk the list once, moving the running
best (ep, d) to any neighbour whose distance is strictly smaller, and
record in fc whether at least one such move happened.  dc n is the
distance from the query to the vector of node n. -/
def scanNbrs (dc : NodeId → Dist) : List NodeId → NodeId → Dist → Bool → NodeId × Dist × Bool
  | [], ep, d, fc => (ep, d, fc)
  | n :: rest, ep, d, fc =>
    if dc n < d then scanNbrs dc rest n (dc n) true
    else scanNbrs dc rest ep d fc

/-- Upper-layer greedy descent of OmegaSearcher::adaptive_search
("Navigate to layer 0", omega_searcher.cc lines 180-201).  The level
argument counts down from cur_max_level; for each level the neighbour
list of the current entry point is scanned exactly once, and the loop
breaks out entirely when the list is empty, when the batched vector
fetch fails, or when no strictly closer neighbour was found. -/
def navigate (g : Graph) (dc : NodeId → Dist) : Nat → NodeId → Dist → NodeId × Dist
  | 0, ep, d => (ep, d)
  | l + 1, ep, d =>
    let ns := g.nbrs (l + 1) ep
    if ns = [] then (ep, d)
    else if g.fetchOk ns = false then (ep, d)
    else
      match scanNbrs dc ns ep d false with
      | (ep2, d2, fc) => if fc then navigate g dc l ep2 d2 else (ep, d)

/-- Modelled from the spec: the candidates min-heap of the HnswContext
(HnswContext is not under src/); kept as a list sorted by ascending
distance, so that begin() is the head and pop() drops the head
(spec section 4.4). -/
def cInsert (x : NodeId × Dist) : List (NodeId × Dist) → List (NodeId × Dist)
  | [] => [x]
  | y :: ys => if x.2 < y.2 then x :: y :: ys else y :: cInsert x ys

/-- Modelled from the spec: ordered insert into the topk max-heap of the
HnswContext, kept as a list sorted by descending distance so that the
worst element (topk_heap[0]) is the head (spec section 4.4). -/
def tInsert (x : NodeId × Dist) : List (NodeId × Dist) → List (NodeId × Dist)
  | [] => [x]
  | y :: ys => if y.2 < x.2 then x :: y :: ys else y :: tInsert x ys

/-- Modelled from the spec: push into the bounded topk max-heap with
limit lim — when inserting into a full bounded heap, a new element
strictly greater than peek_max is rejected, otherwise it replaces
peek_max (spec section 4.4). -/
def tEmplace (lim : Nat) (x : NodeId × Dist) (t : List (NodeId × Dist)) : List (NodeId × Dist) :=
  if t.length < lim then tInsert x t
  else
    match t with
    | [] => []
    | y :: ys => if y.2 < x.2 then y :: ys else tInsert x ys

/-- Scan a neighbour list against the visited filter, marking unvisited
nodes as visited while collecting them, exactly as the filter loop of
omega_searcher.cc lines 253-260 does (duplicates inside one list are
dropped because marking happens during the scan).  Returns the list of
newly visited nodes in scan order and the updated visited set. -/
def markScan : List NodeId → List NodeId → List NodeId × List NodeId
  | v, [] => ([], v)
  | v, n :: ns =>
    if n ∈ v then markScan v ns
    else
      let r := markScan (n :: v) ns
      (n :: r.1, r.2)

/-- Events of one adaptive search, recording every call into the OMEGA
per-query predictor together with the surrounding control points of the
layer-0 beam loop, in program order. -/
inductive Event where
  | distStart (d : Dist)
  | stopTest (b : Bool)
  | predictCall (b : Bool)
  | stopCall (b : Bool)
  | popMin (n : NodeId)
  | hop
  | fetchVec (ids : List NodeId) (ok : Bool)
  | visitRep (n : NodeId) (d : Dist) (inTopk : Bool)
deriving DecidableEq

/-- The per-query OMEGA predictor handle (omega_search_* functions of
omega/omega_api.h), kept opaque: a state type sigma with the operations
the core uses.  should_predict and should_stop are modelled as pure
queries of the accumulated state, per spec section 4.6. -/
structure Predictor (σ : Type) where
  setDistStart : σ → Dist → σ
  reportHop : σ → σ
  reportVisit : σ → NodeId → Dist → Bool → σ
  shouldPredict : σ → Bool
  shouldStop : σ → Bool

/-- Per-query state of the layer-0 beam loop of adaptive_search:
candidates min-heap, bounded topk max-heap, visited filter, lowerBound,
the opaque predictor state, and the instrumentation trace. -/
structure BeamState (σ : Type) where
  cands : List (NodeId × Dist)
  topk : List (NodeId × Dist)
  visited : List NodeId
  lb : Dist
  om : σ
  tr : List Event

/-- Processing of one newly scored neighbour in the beam loop
(omega_searcher.cc lines 272-302): compute is_in_topk before mutating
topk, report the visit, and if is_in_topk push into both heaps, lower
lowerBound to the new distance if smaller, evict down to ef, and when the
heap holds at least ef entries set lowerBound to the worst stored
distance (topk_heap[0]). -/
def procNbr {σ : Type} (P : Predictor σ) (dc : NodeId → Dist) (ef lim : Nat)
    (st : BeamState σ) (n : NodeId) : BeamState σ :=
  let d := dc n
  let isIn : Bool := decide (st.topk.length < ef) || decide (d < st.lb)
  let st1 : BeamState σ :=
    { st with om := P.reportVisit st.om n d isIn,
              tr := st.tr ++ [Event.visitRep n d isIn] }
  if isIn then
    let t1 := tEmplace lim (n, d) st1.topk
    let lb1 := if d < st1.lb then d else st1.lb
    let t2 := t1.drop (t1.length - ef)
    let lb2 := if t2 ≠ [] ∧ ef ≤ t2.length then (t2.headD (0, 0)).2 else lb1
    { st1 with cands := cInsert (n, d) st1.cands, topk := t2, lb := lb2 }
  else st1

/-- Result of one iteration of the beam loop: either the loop continues
with a new state, or it terminates (stopping condition, OMEGA early stop,
empty frontier, or failed vector fetch). -/
inductive StepRes (σ : Type) where
  | more (st : BeamState σ)
  | halt (st : BeamState σ)

/-- The underlying state of a step result. -/
def StepRes.st {σ : Type} : StepRes σ → BeamState σ
  | .more s => s
  | .halt s => s

/-- Expansion part of one beam iteration (omega_searcher.cc lines
243-303): pop the frontier minimum, report the hop, fetch the layer-0
neighbours, filter and mark unvisited ones, batch-fetch their vectors
(breaking out of the loop if the fetch fails), and score each fetched
neighbour with procNbr. -/
def beamExpand {σ : Type} (P : Predictor σ) (g : Graph) (dc : NodeId → Dist) (ef lim : Nat)
    (st : BeamState σ) (n : NodeId) (rest : List (NodeId × Dist)) : StepRes σ :=
  let st1 : BeamState σ :=
    { st with cands := rest, om := P.reportHop st.om,
              tr := st.tr ++ [Event.popMin n, Event.hop] }
  let ns := g.nbrs 0 n
  if ns = [] then .more st1
  else
    let pr := markScan st1.visited ns
    let st2 : BeamState σ := { st1 with visited := pr.2 }
    if pr.1 = [] then .more st2
    else
      let ok := g.fetchOk pr.1
      let st3 : BeamState σ := { st2 with tr := st2.tr ++ [Event.fetchVec pr.1 ok] }
      if ok then .more (pr.1.foldl (procNbr P dc ef lim) st3)
      else .halt st3

/-- One iteration of the main beam loop of adaptive_search
(omega_searcher.cc lines 222-304): stop when the frontier is empty; peek
the frontier minimum; apply the standard HNSW stopping test; then the
OMEGA early-stop check (should_stop guarded by should_predict); then pop
and expand. -/
def beamStep {σ : Type} (P : Predictor σ) (g : Graph) (dc : NodeId → Dist) (ef lim : Nat)
    (st : BeamState σ) : StepRes σ :=
  match st.cands with
  | [] => .halt st
  | (n, d) :: rest =>
    if decide (st.lb < d) && decide (ef ≤ st.topk.length) then
      .halt { st with tr := st.tr ++ [Event.stopTest true] }
    else
      let stA : BeamState σ := { st with tr := st.tr ++ [Event.stopTest false] }
      let p := P.shouldPredict stA.om
      let stB : BeamState σ := { stA with tr := stA.tr ++ [Event.predictCall p] }
      if p then
        let sp := P.shouldStop stB.om
        let stC : BeamState σ := { stB with tr := stB.tr ++ [Event.stopCall sp] }
        if sp then .halt stC
        else beamExpand P g dc ef lim stC n rest
      else beamExpand P g dc ef lim stB n rest

/-- Fuel-indexed iteration of the beam loop.  The C++ while-loop is
modelled as iteration of beamStep; all general theorems about the loop
are stated per step or per reachable state and are therefore independent
of the fuel, and concrete executions are run with ample fuel. -/
def beamRun {σ : Type} (P : Predictor σ) (g : Graph) (dc : NodeId → Dist) (ef lim : Nat) :
    Nat → BeamState σ → BeamState σ
  | 0, st => st
  | fuel + 1, st =>
    match beamStep P g dc ef lim st with
    | .halt st2 => st2
    | .more st2 => beamRun P g dc ef lim fuel st2

/-- Initial beam state seeded with the entry point found by the descent
(omega_searcher.cc lines 206-219): heaps cleared and seeded with
(ep, d), ep marked visited, the initial visit reported with
is_in_topk = 1, and lowerBound set to d.  The trace also records the
preceding omega_search_set_dist_start call. -/
def initBeam {σ : Type} (om : σ) (ep : NodeId) (d : Dist) : BeamState σ :=
  { cands := [(ep, d)], topk := [(ep, d)], visited := [ep], lb := d, om := om,
    tr := [Event.distStart d, Event.visitRep ep d true] }

/-- Modelled from the spec: extraction of the final results from the topk
heap (HnswContext::topk_to_result is not under src/) — drain into a
sequence sorted by ascending distance and truncate to the requested
count (spec section 4.5 step 4). -/
def topkToResult (k : Nat) (t : List (NodeId × Dist)) : List (NodeId × Dist) :=
  (t.foldl (fun acc x => cInsert x acc) []).take k

/-- OmegaSearcher::adaptive_search (omega_searcher.cc lines 137-319).
create is the result of omega_search_create_with_params (none when it
returns null, in which case the search falls back to the baseline, whose
result is the baseline argument); dc is the distance calculator already
reset to the query; count is the requested k; the status is 0 on every
path of the adaptive search itself.  Returns (status, results, trace). -/
def adaptiveSearch {σ : Type} (P : Predictor σ) (create : Option σ)
    (baseline : Int × List (NodeId × Dist)) (g : Graph) (dc : NodeId → Dist)
    (ef count fuel : Nat) : Int × List (NodeId × Dist) × List Event :=
  match create with
  | none => (baseline.1, baseline.2, [])
  | some om0 =>
    if g.entryPoint = kInvalidNodeId then (0, [], [])
    else
      let p0 := navigate g dc g.maxLevel g.entryPoint (dc g.entryPoint)
      let om1 := P.setDistStart om0 p0.2
      let st0 : BeamState σ := initBeam (P.reportVisit om1 p0.1 p0.2 true) p0.1 p0.2
      let stF := beamRun P g dc ef (max ef count) fuel st0
      (0, topkToResult count stF.topk, stF.tr)

/-- The configuration keys read by OmegaSearcher::init together with the
single key the baseline searcher reads (ef); a field is none when the key
is absent (params.has is false). -/
structure Params where
  omegaEnabled : Option Bool
  omegaTargetRecall : Option ℚ
  omegaMinVectorThreshold : Option Nat
  omegaModelDir : Option String
  ef : Option Nat

/-- Modelled from the spec: the state of the baseline HnswSearcher
(hnsw_searcher is not under src/) — the beam width ef and the loaded
graph; per spec section 6 only the ef key affects the baseline. -/
structure HnswState where
  ef : Nat
  graph : Option Graph

/-- Modelled from the spec: the builder-default beam width used when the
ef key is absent. -/
def defaultEf : Nat := 100

/-- Modelled from the spec: HnswSearcher::init reads only the baseline
keys of the params; omega.* keys do not affect it. -/
def hnswInit (p : Params) : HnswState :=
  { ef := p.ef.getD defaultEf, graph := none }

/-- Environment of one load call: the outcome of HnswSearcher::load, the
loaded vector count (stats().loaded_count()), the graph materialised on
success, and the behaviour of omega_model_create / omega_model_load /
omega_model_is_loaded for the configured model_dir. -/
structure LoadEnv where
  hnswLoadRet : Int
  loadedCount : Nat
  graph : Graph
  modelCreate : Option ModelHandle
  modelLoadRet : ModelHandle → Int
  modelIsLoaded : ModelHandle → Bool

/-- Modelled from the spec: HnswSearcher::load materialises the graph in
memory on success and propagates its error code on failure. -/
def hnswLoad (env : LoadEnv) (h : HnswState) : Int × HnswState :=
  if env.hnswLoadRet = 0 then (0, { h with graph := some env.graph })
  else (env.hnswLoadRet, h)

/-- Long-lived state of an OmegaSearcher (omega_searcher.h lines
109-117): the inherited baseline state plus the OMEGA fields. -/
structure OmegaSearcher where
  hnsw : HnswState
  omegaModel : Option ModelHandle
  omegaEnabled : Bool
  useOmegaMode : Bool
  targetRecall : ℚ
  minVectorThreshold : Nat
  currentVectorCount : Nat
  modelDir : String

/-- OmegaSearcher::init (omega_searcher.cc lines 40-58): read the
omega.* keys with their defaults and initialise the baseline searcher;
the constructor defaults (lines 27-34) give the remaining fields. -/
def OmegaSearcher.init (p : Params) : OmegaSearcher :=
  { hnsw := hnswInit p,
    omegaModel := none,
    omegaEnabled := p.omegaEnabled.getD false,
    useOmegaMode := false,
    targetRecall := p.omegaTargetRecall.getD (95 / 100),
    minVectorThreshold := p.omegaMinVectorThreshold.getD 10000,
    currentVectorCount := 0,
    modelDir := p.omegaModelDir.getD "" }

/-- OmegaSearcher::load (omega_searcher.cc lines 71-111): load the HNSW
index, record the vector count, reset use_omega_mode_, and try to
activate OMEGA mode only when the flag is set, the count reaches the
threshold and model_dir is nonempty; a model that fails to create, to
load, or to report loaded leaves omega_model_ null and the searcher in
baseline mode, and load still returns 0. -/
def OmegaSearcher.load (env : LoadEnv) (s : OmegaSearcher) : Int × OmegaSearcher :=
  let r := hnswLoad env s.hnsw
  if r.1 ≠ 0 then (r.1, { s with hnsw := r.2 })
  else
    let s1 : OmegaSearcher :=
      { s with hnsw := r.2, currentVectorCount := env.loadedCount, useOmegaMode := false }
    if s1.omegaEnabled && decide (s1.minVectorThreshold ≤ env.loadedCount) then
      if s1.modelDir ≠ "" then
        match env.modelCreate with
        | none => (0, s1)
        | some hM =>
          if env.modelLoadRet hM = 0 && env.modelIsLoaded hM then
            (0, { s1 with omegaModel := some hM, useOmegaMode := true })
          else (0, { s1 with omegaModel := none })
      else (0, s1)
    else (0, s1)

/-- OmegaSearcher::should_use_omega (omega_searcher.h lines 99-103). -/
def OmegaSearcher.shouldUseOmega (s : OmegaSearcher) (isL : ModelHandle → Bool) : Bool :=
  s.omegaEnabled && s.useOmegaMode &&
    (match s.omegaModel with
     | some h => isL h
     | none => false)

/-- OmegaSearcher::unload (omega_searcher.cc lines 113-123): destroy the
model if present, null the handle, clear use_omega_mode_, and return the
parent unload result.  The third component lists the handles passed to
omega_model_destroy. -/
def OmegaSearcher.unloadOp (hnswRet : Int) (s : OmegaSearcher) :
    Int × OmegaSearcher × List ModelHandle :=
  (hnswRet, { s with omegaModel := none, useOmegaMode := false }, s.omegaModel.toList)

/-- OmegaSearcher::cleanup (omega_searcher.cc lines 60-69): destroy the
model if present and null the handle (use_omega_mode_ is not touched),
then return the parent cleanup result.  The third component lists the
handles passed to omega_model_destroy. -/
def OmegaSearcher.cleanupOp (hnswRet : Int) (s : OmegaSearcher) :
    Int × OmegaSearcher × List ModelHandle :=
  (hnswRet, { s with omegaModel := none }, s.omegaModel.toList)

/-- OmegaSearcher::search_impl (omega_searcher.cc lines 125-135): when
should_use_omega is false delegate to HnswSearcher::search_impl (hs,
applied to the inherited baseline state), otherwise run the adaptive
search on the loaded graph; the baseline result is also what the
adaptive search falls back to when the per-query OMEGA context cannot
be created. -/
def OmegaSearcher.searchImpl {σ : Type} (P : Predictor σ) (create : Option σ)
    (isL : ModelHandle → Bool)
    (hs : HnswState → (NodeId → Dist) → Nat → Int × List (NodeId × Dist))
    (s : OmegaSearcher) (dc : NodeId → Dist) (count fuel : Nat) :
    Int × List (NodeId × Dist) :=
  if s.shouldUseOmega isL then
    match s.hnsw.graph with
    | some g =>
      let r := adaptiveSearch P create (hs s.hnsw dc count) g dc s.hnsw.ef count fuel
      (r.1, r.2.1)
    | none => hs s.hnsw dc count
  else hs s.hnsw dc count

/-- Build lifecycle states of OmegaBuilder (omega_builder.h lines 54-64). -/
inductive BuildState where
  | sInit
  | sInited
  | sTrained
  | sBuilt
deriving DecidableEq

/-- Return values of the builder and streamer operations, as the named
IndexError codes of the source (ok stands for 0). -/
inductive BuildRet where
  | ok
  | duplicate
  | noReady
  | notImplemented
deriving DecidableEq

/-- State of an OmegaBuilder; the wrapped HnswBuilder pointer never
becomes live because init never succeeds, so only the state field
matters. -/
structure OmegaBuilder where
  state : BuildState

/-- A freshly constructed OmegaBuilder (state BUILD_STATE_INIT). -/
def OmegaBuilder.initial : OmegaBuilder := ⟨BuildState.sInit⟩

/-- OmegaBuilder::init (omega_builder.cc lines 25-49): Duplicate when the
state already left BUILD_STATE_INIT, otherwise NotImplemented without
any state change. -/
def OmegaBuilder.initOp (b : OmegaBuilder) : BuildRet × OmegaBuilder :=
  if b.state = BuildState.sInit then (BuildRet.notImplemented, b)
  else (BuildRet.duplicate, b)

/-- OmegaBuilder::cleanup (omega_builder.cc lines 51-63): resets the
state to BUILD_STATE_INIT and returns 0. -/
def OmegaBuilder.cleanupOp (_b : OmegaBuilder) : BuildRet × OmegaBuilder :=
  (BuildRet.ok, ⟨BuildState.sInit⟩)

/-- OmegaBuilder::train, both overloads (omega_builder.cc lines 65-96):
NoReady unless the state is BUILD_STATE_INITED; deleg is the result the
wrapped HnswBuilder would return on the (unreachable) delegation path. -/
def OmegaBuilder.trainOp (b : OmegaBuilder) (deleg : BuildRet) : BuildRet × OmegaBuilder :=
  if b.state = BuildState.sInited then
    if deleg = BuildRet.ok then (BuildRet.ok, ⟨BuildState.sTrained⟩) else (deleg, b)
  else (BuildRet.noReady, b)

/-- OmegaBuilder::build (omega_builder.cc lines 98-114): NoReady unless
the state is BUILD_STATE_TRAINED. -/
def OmegaBuilder.buildOp (b : OmegaBuilder) (deleg : BuildRet) : BuildRet × OmegaBuilder :=
  if b.state = BuildState.sTrained then
    if deleg = BuildRet.ok then (BuildRet.ok, ⟨BuildState.sBuilt⟩) else (deleg, b)
  else (BuildRet.noReady, b)

/-- OmegaBuilder::dump (omega_builder.cc lines 116-130): NoReady unless
the state is BUILD_STATE_BUILT; dumping does not change the state. -/
def OmegaBuilder.dumpOp (b : OmegaBuilder) (deleg : BuildRet) : BuildRet × OmegaBuilder :=
  if b.state = BuildState.sBuilt then
    if deleg = BuildRet.ok then (BuildRet.ok, b) else (deleg, b)
  else (BuildRet.noReady, b)

/-- OmegaStreamer::init (omega_streamer.cc lines 29-49): stores the
params and returns NotImplemented unconditionally. -/
def omegaStreamerInit (p : Params) : BuildRet × Params :=
  (BuildRet.notImplemented, p)

/-- One builder API call, with the would-be delegation result for the
operations that would forward to the wrapped HnswBuilder.  Both train
overloads are included. -/
inductive BOp where
  | opInit
  | opCleanup
  | opTrainA (deleg : BuildRet)
  | opTrainB (deleg : BuildRet)
  | opBuild (deleg : BuildRet)
  | opDump (deleg : BuildRet)

/-- Apply one builder API call to a builder, keeping the new state. -/
def applyOp (b : OmegaBuilder) : BOp → BuildRet × OmegaBuilder
  | .opInit => b.initOp
  | .opCleanup => b.cleanupOp
  | .opTrainA d => b.trainOp d
  | .opTrainB d => b.trainOp d
  | .opBuild d => b.buildOp d
  | .opDump d => b.dumpOp d

/-- Run a sequence of builder API calls from a fresh OmegaBuilder. -/
def runOps (ops : List BOp) : OmegaBuilder :=
  ops.foldl (fun b op => (applyOp b op).2) OmegaBuilder.initial

/-- Worst (largest) distance stored in a heap list (0 for the empty
list, which is never relied upon). -/
def maxDist : List (NodeId × Dist) → Dist
  | [] => 0
  | [x] => x.2
  | x :: y :: xs => max x.2 (maxDist (y :: xs))

/-- Representation invariant of the modelled topk max-heap: distances
are descending from the head, so the head is the worst element. -/
abbrev DescSorted (t : List (NodeId × Dist)) : Prop :=
  List.Pairwise (fun a b : NodeId × Dist => b.2 ≤ a.2) t

/-- Invariant of the beam loop relating lowerBound to the topk heap:
the heap stays descending-sorted and, whenever it holds at least ef
entries, lowerBound equals the worst stored distance. -/
abbrev TopkInv {σ : Type} (ef : Nat) (st : BeamState σ) : Prop :=
  DescSorted st.topk ∧ (ef ≤ st.topk.length → st.lb = maxDist st.topk)

/-- One continuing (non-final) iteration of the beam loop. -/
def BeamStepRel {σ : Type} (P : Predictor σ) (g : Graph) (dc : NodeId → Dist)
    (ef lim : Nat) (s t : BeamState σ) : Prop :=
  beamStep P g dc ef lim s = StepRes.more t

/-- Beam states reachable from a given state by continuing iterations. -/
def BeamReach {σ : Type} (P : Predictor σ) (g : Graph) (dc : NodeId → Dist)
    (ef lim : Nat) : BeamState σ → BeamState σ → Prop :=
  Relation.ReflTransGen (BeamStepRel P g dc ef lim)

/-- Local ordering constraints between two consecutive trace events:
a should_stop call is immediately preceded by a should_predict call that
returned true; a should_predict call is immediately preceded by a false
standard stopping test; a frontier pop is immediately preceded by the
negative OMEGA check; a hop report appears exactly immediately after a
frontier pop. -/
def PairOk (a b : Event) : Prop :=
  (match b with
   | Event.stopCall _ => a = Event.predictCall true
   | Event.predictCall _ => a = Event.stopTest false
   | Event.popMin _ => a = Event.predictCall false ∨ a = Event.stopCall false
   | Event.hop => ∃ n, a = Event.popMin n
   | _ => True)
  ∧ (match a with
     | Event.popMin _ => b = Event.hop
     | _ => True)

/-- Well-ordered predictor trace: all consecutive-pair constraints hold,
no trace ends on an unanswered frontier pop, and no trace begins with a
should_stop call or a hop report. -/
def TraceOk (t : List Event) : Prop :=
  List.Chain' PairOk t
  ∧ (∀ n, t.getLast? ≠ some (Event.popMin n))
  ∧ (∀ s, t.head? ≠ some (Event.stopCall s))
  ∧ t.head? ≠ some Event.hop

/-- Internal strengthening of TraceOk used in the loop induction: the
trace starts with the set_dist_start record. -/
def TraceInv (t : List Event) : Prop :=
  List.Chain' PairOk t
  ∧ (∀ n, t.getLast? ≠ some (Event.popMin n))
  ∧ ∃ d0 r, t = Event.distStart d0 :: r

/-- An event reporting one scored neighbour. -/
def IsVisit (e : Event) : Prop :=
  ∃ n d b, e = Event.visitRep n d b

/-- Events that may follow an arbitrary non-pop event: the events whose
PairOk constraint on the preceding event is vacuous. -/
def ChunkHead (e : Event) : Prop :=
  match e with
  | Event.stopTest _ => True
  | Event.fetchVec _ _ => True
  | Event.visitRep _ _ _ => True
  | Event.distStart _ => True
  | _ => False

/-- Formalisation of the descent procedure exactly as claim C3 states it
(one level): repeatedly move from the current best to the best strictly
closer neighbour at level L, and finish only when no neighbour at level
L is strictly closer; on equal distances the current node is kept
because only strict improvements move. -/
inductive SpecLevel (g : Graph) (dc : NodeId → Dist) (L : Nat) :
    NodeId × Dist → NodeId × Dist → Prop where
  | done (ep : NodeId) (d : Dist) :
      (∀ m ∈ g.nbrs L ep, ¬ dc m < d) → SpecLevel g dc L (ep, d) (ep, d)
  | step (ep : NodeId) (d : Dist) (m : NodeId) (out : NodeId × Dist) :
      m ∈ g.nbrs L ep → dc m < d → (∀ x ∈ g.nbrs L ep, dc m ≤ dc x) →
      SpecLevel g dc L (m, dc m) out → SpecLevel g dc L (ep, d) out

/-- Formalisation of the full descent procedure exactly as claim C3
states it: settle each level from max_level down to 1 with SpecLevel,
and only then proceed to the next lower level. -/
inductive SpecDescend (g : Graph) (dc : NodeId → Dist) :
    Nat → NodeId × Dist → NodeId × Dist → Prop where
  | base (s : NodeId × Dist) : SpecDescend g dc 0 s s
  | level (l : Nat) (s mid out : NodeId × Dist) :
      SpecLevel g dc (l + 1) s mid → SpecDescend g dc l mid out →
      SpecDescend g dc (l + 1) s out

/-- The amended descent contract (claim C3 as corrected): at each level
from max_level down to 1 the searcher makes at most one move, to a
neighbour of strictly smaller distance that is minimal among the
neighbours scanned, and the whole descent ends as soon as a level has an
empty neighbour list, a failed vector fetch, or no strictly closer
neighbour. -/
inductive CodeDescend (g : Graph) (dc : NodeId → Dist) :
    Nat → NodeId × Dist → NodeId × Dist → Prop where
  | base (s : NodeId × Dist) : CodeDescend g dc 0 s s
  | stopEmpty (l : Nat) (ep : NodeId) (d : Dist) :
      g.nbrs (l + 1) ep = [] → CodeDescend g dc (l + 1) (ep, d) (ep, d)
  | stopFetch (l : Nat) (ep : NodeId) (d : Dist) :
      g.nbrs (l + 1) ep ≠ [] → g.fetchOk (g.nbrs (l + 1) ep) = false →
      CodeDescend g dc (l + 1) (ep, d) (ep, d)
  | stopNoImp (l : Nat) (ep : NodeId) (d : Dist) :
      (∀ m ∈ g.nbrs (l + 1) ep, ¬ dc m < d) → CodeDescend g dc (l + 1) (ep, d) (ep, d)
  | move (l : Nat) (ep : NodeId) (d : Dist) (m : NodeId) (out : NodeId × Dist) :
      m ∈ g.nbrs (l + 1) ep → dc m < d → (∀ x ∈ g.nbrs (l + 1) ep, dc m ≤ dc x) →
      CodeDescend g dc l (m, dc m) out → CodeDescend g dc (l + 1) (ep, d) out

/-- A trivial predictor over the unit state: never predicts, never
stops; used to instantiate the opaque predictor in concrete runs. -/
def trivPred : Predictor Unit :=
  { setDistStart := fun s _ => s, reportHop := fun s => s,
    reportVisit := fun s _ _ _ => s, shouldPredict := fun _ => false,
    shouldStop := fun _ => false }

/-- Concrete graph refuting claim C3: one upper level where node 10 has
the strictly closer neighbour 11, and 11 in turn has the strictly closer
neighbour 12 at the same level. -/
def gC3 : Graph :=
  { maxLevel := 1, entryPoint := 10,
    nbrs := fun l n =>
      if l = 1 then (if n = 10 then [11] else if n = 11 then [12] else []) else [],
    fetchOk := fun _ => true }

/-- Distances for the C3 counterexample graph. -/
def dcC3 : NodeId → Dist := fun n => if n = 10 then 3 else if n = 11 then 2 else 1

/-- Concrete graph refuting claim C4: at layer 0 the entry node 1 has
neighbours 2 and 3 whose batched vector fetch fails; at level 1 node 5
has the same neighbour list, exercising the descent fetch failure. -/
def gC4 : Graph :=
  { maxLevel := 0, entryPoint := 1,
    nbrs := fun l n =>
      if l = 0 ∧ n = 1 then [2, 3]
      else if l = 1 ∧ n = 5 then [2, 3]
      else [],
    fetchOk := fun ids => decide (ids ≠ [2, 3]) }

/-- Distances for the C4 counterexample graph. -/
def dcC4 : NodeId → Dist := fun n => (n : ℚ)

/-- An empty graph: invalid entry point, no neighbours. -/
def gEmpty : Graph :=
  { maxLevel := 0, entryPoint := kInvalidNodeId, nbrs := fun _ _ => [],
    fetchOk := fun _ => true }

/-- A concrete searcher state in which OMEGA mode is active, used to
exercise cleanup directly from a loaded adaptive state. -/
def sAct : OmegaSearcher :=
  { hnsw := { ef := 16, graph := none }, omegaModel := some 7, omegaEnabled := true,
    useOmegaMode := true, targetRecall := 95 / 100, minVectorThreshold := 10000,
    currentVectorCount := 20000, modelDir := "models" }

/-- A trivial baseline search function used in concrete witnesses. -/
def hs0 : HnswState → (NodeId → Dist) → Nat → Int × List (NodeId × Dist) :=
  fun _ _ _ => (0, [])

/-- A constant-zero distance calculator used in concrete witnesses. -/
def dc0 : NodeId → Dist := fun _ => 0

/-- Params with omega.enabled explicitly false and all other keys absent. -/
def pFalse : Params :=
  { omegaEnabled := some false, omegaTargetRecall := none,
    omegaMinVectorThreshold := none, omegaModelDir := none, ef := none }

/-- Params with every key absent. -/
def pNone : Params :=
  { omegaEnabled := none, omegaTargetRecall := none,
    omegaMinVectorThreshold := none, omegaModelDir := none, ef := none }

/-- Params arming OMEGA with a model directory, used in the C2 witness. -/
def pArm : Params :=
  { omegaEnabled := some true, omegaTargetRecall := some (9 / 10),
    omegaMinVectorThreshold := some 2, omegaModelDir := some "models", ef := some 8 }

/-- A load environment in which the HNSW load succeeds, the count meets
the armed threshold, and the model creates, loads and reports loaded. -/
def envArm : LoadEnv :=
  { hnswLoadRet := 0, loadedCount := 5, graph := gEmpty, modelCreate := some 3,
    modelLoadRet := fun _ => 0, modelIsLoaded := fun _ => true }

/-- A load environment in which the HNSW load succeeds and no model is
available. -/
def envPlain : LoadEnv :=
  { hnswLoadRet := 0, loadedCount := 5, graph := gEmpty, modelCreate := none,
    modelLoadRet := fun _ => 0, modelIsLoaded := fun _ => false }

/-- The beam state reached just before the failing fetch in the C4 run. -/
def stC4 : BeamState Unit :=
  { cands := [(1, 1)], topk := [(1, 1)], visited := [1], lb := 1, om := (), tr := [] }

/-- Well-formedness of a graph view over a finite node universe: every
neighbour list only mentions nodes of the universe. -/
def GraphWF (g : Graph) (nodes : Finset NodeId) : Prop :=
  ∀ l n, ∀ m ∈ g.nbrs l n, m ∈ nodes

/-- Termination measure of the beam loop over a finite node universe:
twice the number of unvisited universe nodes plus the frontier size.
Every continuing iteration strictly decreases it, which makes the
fuel-indexed model of the while loop exact beyond an explicit bound. -/
def beamMeasure {σ : Type} (nodes : Finset NodeId) (st : BeamState σ) : Nat :=
  2 * (nodes \ st.visited.toFinset).card + st.cands.length

theorem runOps_state (ops : List BOp) : (runOps ops).state = BuildState.sInit := by
  have h : ∀ (l : List BOp) (b : OmegaBuilder), b.state = BuildState.sInit →
      (l.foldl (fun b op => (applyOp b op).2) b).state = BuildState.sInit := by
    intro l
    induction l with
    | nil => intro b hb; exact hb
    | cons op rest ih =>
      intro b hb
      apply ih
      cases op <;>
        simp [applyOp, OmegaBuilder.initOp, OmegaBuilder.cleanupOp,
          OmegaBuilder.trainOp, OmegaBuilder.buildOp, OmegaBuilder.dumpOp, hb]
  exact h ops OmegaBuilder.initial rfl

/-- C9: OmegaBuilder::init returns NotImplemented from the initial state
and Duplicate from any other state; starting from a fresh builder, no
sequence of API calls moves the state out of BUILD_STATE_INIT, so train,
build and dump always return NoReady; OmegaStreamer::init always returns
NotImplemented — the Omega build and stream paths can never produce an
index. -/
theorem omega_c9_build_path_dead (ops : List BOp) (d : BuildRet) (p : Params) :
    (runOps ops).state = BuildState.sInit
    ∧ ((runOps ops).initOp).1 = BuildRet.notImplemented
    ∧ ((runOps ops).trainOp d).1 = BuildRet.noReady
    ∧ ((runOps ops).buildOp d).1 = BuildRet.noReady
    ∧ ((runOps ops).dumpOp d).1 = BuildRet.noReady
    ∧ (OmegaBuilder.initOp ⟨BuildState.sInited⟩).1 = BuildRet.duplicate
    ∧ (OmegaBuilder.initOp ⟨BuildState.sTrained⟩).1 = BuildRet.duplicate
    ∧ (OmegaBuilder.initOp ⟨BuildState.sBuilt⟩).1 = BuildRet.duplicate
    ∧ (omegaStreamerInit p).1 = BuildRet.notImplemented := by
  have hst := runOps_state ops
  refine ⟨hst, ?_, ?_, ?_, ?_, by decide, by decide, by decide, rfl⟩ <;>
    simp [OmegaBuilder.initOp, OmegaBuilder.trainOp, OmegaBuilder.buildOp,
      OmegaBuilder.dumpOp, hst]

/-- C10 counterexample: from a loaded adaptive state, cleanup leaves
use_omega_mode_ equal to true (while nulling the model handle), refuting
the claim that use_omega_mode_ is false after cleanup returns. -/
theorem omega_c10_counterexample :
    (OmegaSearcher.cleanupOp 0 sAct).2.1.useOmegaMode = true
    ∧ (OmegaSearcher.cleanupOp 0 sAct).2.1.omegaModel = none :=
  ⟨rfl, rfl⟩

theorem shouldUseOmega_false_of_not_enabled (s : OmegaSearcher) (isL : ModelHandle → Bool)
    (h : s.omegaEnabled = false) : s.shouldUseOmega isL = false := by
  simp [OmegaSearcher.shouldUseOmega, h]

/-- C10 as amended: after unload the model handle is null and
use_omega_mode_ is false; after cleanup the model handle is null (while
use_omega_mode_ is left unchanged); in both cases should_use_omega is
false and search_impl takes the baseline HNSW path; the destroyed-handle
lists show that a searcher holding no model destroys nothing, and that
cleanup after unload performs no second destroy. -/
theorem omega_c10_amended {σ : Type} (P : Predictor σ) (create : Option σ)
    (isL : ModelHandle → Bool)
    (hs : HnswState → (NodeId → Dist) → Nat → Int × List (NodeId × Dist))
    (s : OmegaSearcher) (dc : NodeId → Dist) (count fuel : Nat) (hr hr2 : Int) :
    ((OmegaSearcher.unloadOp hr s).2.1.omegaModel = none
      ∧ (OmegaSearcher.unloadOp hr s).2.1.useOmegaMode = false
      ∧ (OmegaSearcher.unloadOp hr s).2.1.shouldUseOmega isL = false
      ∧ OmegaSearcher.searchImpl P create isL hs (OmegaSearcher.unloadOp hr s).2.1 dc count fuel
          = hs (OmegaSearcher.unloadOp hr s).2.1.hnsw dc count)
    ∧ ((OmegaSearcher.cleanupOp hr2 s).2.1.omegaModel = none
      ∧ (OmegaSearcher.cleanupOp hr2 s).2.1.shouldUseOmega isL = false
      ∧ OmegaSearcher.searchImpl P create isL hs (OmegaSearcher.cleanupOp hr2 s).2.1 dc count fuel
          = hs (OmegaSearcher.cleanupOp hr2 s).2.1.hnsw dc count)
    ∧ (OmegaSearcher.unloadOp hr s).2.2 = s.omegaModel.toList
    ∧ (OmegaSearcher.cleanupOp hr2 s).2.2 = s.omegaModel.toList
    ∧ (OmegaSearcher.unloadOp hr { s with omegaModel := none }).2.2 = []
    ∧ (OmegaSearcher.cleanupOp hr2 { s with omegaModel := none }).2.2 = []
    ∧ (OmegaSearcher.cleanupOp hr2 (OmegaSearcher.unloadOp hr s).2.1).2.2 = [] := by
  refine ⟨⟨rfl, rfl, ?_, ?_⟩, ⟨rfl, ?_, ?_⟩, rfl, rfl, rfl, rfl, rfl⟩
  · simp [OmegaSearcher.shouldUseOmega, OmegaSearcher.unloadOp]
  · simp [OmegaSearcher.searchImpl, OmegaSearcher.shouldUseOmega, OmegaSearcher.unloadOp]
  · simp [OmegaSearcher.shouldUseOmega, OmegaSearcher.cleanupOp]
  · simp [OmegaSearcher.searchImpl, OmegaSearcher.shouldUseOmega, OmegaSearcher.cleanupOp]

/-- C7: when the per-query OMEGA context cannot be created
(omega_search_create_with_params returns null), search_impl does not
fail — it returns exactly the baseline HNSW search result on the same
query, count and state. -/
theorem omega_c7_create_null_falls_back {σ : Type} (P : Predictor σ)
    (isL : ModelHandle → Bool)
    (hs : HnswState → (NodeId → Dist) → Nat → Int × List (NodeId × Dist))
    (s : OmegaSearcher) (dc : NodeId → Dist) (count fuel : Nat)
    (create : Option σ) (hnull : create = none) :
    OmegaSearcher.searchImpl P create isL hs s dc count fuel = hs s.hnsw dc count := by
  subst hnull
  unfold OmegaSearcher.searchImpl
  split
  · split
    · simp [adaptiveSearch]
    · rfl
  · rfl

theorem omega_c7_witness :
    (none : Option Unit) = none
    ∧ OmegaSearcher.searchImpl trivPred (none : Option Unit) (fun _ => false) hs0 sAct dc0 1 0
        = hs0 sAct.hnsw dc0 1 :=
  ⟨rfl, omega_c7_create_null_falls_back trivPred (fun _ => false) hs0 sAct dc0 1 0 none rfl⟩

/-- C8: a query against an empty graph (invalid entry point) returns
success with an empty result and an empty trace; an empty graph is never
reported as an error. -/
theorem omega_c8_empty_graph {σ : Type} (P : Predictor σ) (om0 : σ)
    (b : Int × List (NodeId × Dist)) (g : Graph) (dc : NodeId → Dist)
    (ef count fuel : Nat) (hempty : g.entryPoint = kInvalidNodeId) :
    adaptiveSearch P (some om0) b g dc ef count fuel = (0, [], []) := by
  unfold adaptiveSearch
  simp [hempty]

theorem omega_c8_witness :
    gEmpty.entryPoint = kInvalidNodeId
    ∧ adaptiveSearch trivPred (some ()) (0, []) gEmpty dc0 4 10 100 = (0, [], []) :=
  ⟨rfl, omega_c8_empty_graph trivPred () (0, []) gEmpty dc0 4 10 100 rfl⟩

theorem load_hnsw_enabled (env : LoadEnv) (s : OmegaSearcher) :
    ((s.load env).2).hnsw = (hnswLoad env s.hnsw).2
    ∧ ((s.load env).2).omegaEnabled = s.omegaEnabled := by
  by_cases h1 : (hnswLoad env s.hnsw).1 ≠ 0
  · simp [OmegaSearcher.load, h1]
  · by_cases h2 : (s.omegaEnabled && decide (s.minVectorThreshold ≤ env.loadedCount)) = true
    · by_cases h3 : s.modelDir ≠ ""
      · cases hcr : env.modelCreate with
        | none => simp [OmegaSearcher.load, h1, h2, h3, hcr]
        | some hM =>
          by_cases h4 : (env.modelLoadRet hM = 0 && env.modelIsLoaded hM) = true
          · simp [OmegaSearcher.load, h1, h2, h3, hcr, h4]
          · simp [OmegaSearcher.load, h1, h2, h3, hcr, h4]
      · simp [OmegaSearcher.load, h1, h2, h3]
    · simp [OmegaSearcher.load, h1, h2]

/-- C1: an OmegaSearcher initialised with omega.enabled = false, no
matter the other omega.* keys, returns from search_impl exactly the
result the plain HnswSearcher (same ef key, loaded from the same
environment) returns: identical status and identical (key, score)
sequence. -/
theorem omega_c1_disabled_matches_baseline {σ : Type} (P : Predictor σ) (create : Option σ)
    (isL : ModelHandle → Bool)
    (hs : HnswState → (NodeId → Dist) → Nat → Int × List (NodeId × Dist))
    (p pBase : Params) (env : LoadEnv) (dc : NodeId → Dist) (count fuel : Nat)
    (hdis : p.omegaEnabled = some false) (hef : p.ef = pBase.ef) :
    OmegaSearcher.searchImpl P create isL hs ((OmegaSearcher.init p).load env).2 dc count fuel
      = hs (hnswLoad env (hnswInit pBase)).2 dc count := by
  have h1 := load_hnsw_enabled env (OmegaSearcher.init p)
  have hen : ((OmegaSearcher.init p).load env).2.omegaEnabled = false := by
    rw [h1.2]; simp [OmegaSearcher.init, hdis]
  have hsu := shouldUseOmega_false_of_not_enabled _ isL hen
  have hh : ((OmegaSearcher.init p).load env).2.hnsw = (hnswLoad env (hnswInit pBase)).2 := by
    rw [h1.1]
    have hip : (OmegaSearcher.init p).hnsw = hnswInit p := rfl
    have heq : hnswInit p = hnswInit pBase := by simp [hnswInit, hef]
    rw [hip, heq]
  unfold OmegaSearcher.searchImpl
  simp [hsu, hh]

theorem omega_c1_witness :
    pFalse.omegaEnabled = some false ∧ pFalse.ef = pNone.ef
    ∧ OmegaSearcher.searchImpl trivPred (none : Option Unit) (fun _ => false) hs0
        ((OmegaSearcher.init pFalse).load envPlain).2 dc0 1 0
      = hs0 (hnswLoad envPlain (hnswInit pNone)).2 dc0 1 :=
  ⟨rfl, rfl, omega_c1_disabled_matches_baseline trivPred none (fun _ => false) hs0
    pFalse pNone envPlain dc0 1 0 rfl rfl⟩

/-- C2: after a successful load from an initialised searcher, adaptive
mode is active if and only if the enabled flag was set at init, the
loaded count reaches min_vector_threshold, model_dir is nonempty, and
the model creates, loads and reports loaded; load returns 0 in every
such case, and whenever activation fails the searcher keeps no model
handle. -/
theorem omega_c2_load_activation (p : Params) (env : LoadEnv)
    (hok : env.hnswLoadRet = 0) :
    ((OmegaSearcher.init p).load env).1 = 0
    ∧ (((OmegaSearcher.init p).load env).2.shouldUseOmega env.modelIsLoaded = true ↔
        ((OmegaSearcher.init p).omegaEnabled = true
          ∧ (OmegaSearcher.init p).minVectorThreshold ≤ env.loadedCount
          ∧ (OmegaSearcher.init p).modelDir ≠ ""
          ∧ ∃ hM, env.modelCreate = some hM ∧ env.modelLoadRet hM = 0
              ∧ env.modelIsLoaded hM = true))
    ∧ (((OmegaSearcher.init p).load env).2.useOmegaMode
        = ((OmegaSearcher.init p).load env).2.shouldUseOmega env.modelIsLoaded)
    ∧ (((OmegaSearcher.init p).load env).2.shouldUseOmega env.modelIsLoaded = false →
        ((OmegaSearcher.init p).load env).2.omegaModel = none) := by
  have hmodel : (OmegaSearcher.init p).omegaModel = none := rfl
  by_cases he : (OmegaSearcher.init p).omegaEnabled
  · by_cases hc : (OmegaSearcher.init p).minVectorThreshold ≤ env.loadedCount
    · by_cases hd : (OmegaSearcher.init p).modelDir = ""
      · simp [OmegaSearcher.load, hnswLoad, hok, OmegaSearcher.shouldUseOmega,
          he, hc, hd, hmodel]
      · cases hcr : env.modelCreate with
        | none =>
          simp [OmegaSearcher.load, hnswLoad, hok, OmegaSearcher.shouldUseOmega,
            he, hc, hd, hcr, hmodel]
        | some hM =>
          by_cases hl : env.modelLoadRet hM = 0 ∧ env.modelIsLoaded hM = true
          · simp [OmegaSearcher.load, hnswLoad, hok, OmegaSearcher.shouldUseOmega,
              he, hc, hd, hcr, hl.1, hl.2]
          · have hl2 : (env.modelLoadRet hM = 0 && env.modelIsLoaded hM) = false := by
              rcases Decidable.not_and_iff_or_not.mp hl with h | h
              · simp [h]
              · simp [Bool.eq_false_iff.mpr h]
            simp [OmegaSearcher.load, hnswLoad, hok, OmegaSearcher.shouldUseOmega,
              he, hc, hd, hcr, hl2]
            intro h1
            exact Bool.eq_false_iff.mpr fun h2 => hl ⟨h1, h2⟩
    · simp [OmegaSearcher.load, hnswLoad, hok, OmegaSearcher.shouldUseOmega,
        he, hc, hmodel]
  · simp [OmegaSearcher.load, hnswLoad, hok, OmegaSearcher.shouldUseOmega,
      Bool.eq_false_iff.mpr he, hmodel]

theorem omega_c2_witness :
    envArm.hnswLoadRet = 0
    ∧ (((OmegaSearcher.init pArm).load envArm).1 = 0
    ∧ (((OmegaSearcher.init pArm).load envArm).2.shouldUseOmega envArm.modelIsLoaded = true ↔
        ((OmegaSearcher.init pArm).omegaEnabled = true
          ∧ (OmegaSearcher.init pArm).minVectorThreshold ≤ envArm.loadedCount
          ∧ (OmegaSearcher.init pArm).modelDir ≠ ""
          ∧ ∃ hM, envArm.modelCreate = some hM ∧ envArm.modelLoadRet hM = 0
              ∧ envArm.modelIsLoaded hM = true))
    ∧ (((OmegaSearcher.init pArm).load envArm).2.useOmegaMode
        = ((OmegaSearcher.init pArm).load envArm).2.shouldUseOmega envArm.modelIsLoaded)
    ∧ (((OmegaSearcher.init pArm).load envArm).2.shouldUseOmega envArm.modelIsLoaded = false →
        ((OmegaSearcher.init pArm).load envArm).2.omegaModel = none)) :=
  ⟨rfl, omega_c2_load_activation pArm envArm rfl⟩

theorem specLevel_final {g : Graph} {dc : NodeId → Dist} {L : Nat} {s out : NodeId × Dist}
    (h : SpecLevel g dc L s out) : ∀ m ∈ g.nbrs L out.1, ¬ dc m < out.2 := by
  induction h with
  | done ep d hno => exact hno
  | step ep d m out hm hlt hmin hrec ih => exact ih

/-- C3 counterexample: on the concrete graph gC3 the descent of the code
makes a single move per level and stops at node 11, although 11 still
has the strictly closer neighbour 12 at level 1; so the descent result
is not a possible outcome of the per-level repeat-until-no-improvement
procedure that the claim states. -/
theorem omega_c3_counterexample :
    ¬ SpecDescend gC3 dcC3 gC3.maxLevel (gC3.entryPoint, dcC3 gC3.entryPoint)
        (navigate gC3 dcC3 gC3.maxLevel gC3.entryPoint (dcC3 gC3.entryPoint)) := by
  intro h
  have hnav : navigate gC3 dcC3 gC3.maxLevel gC3.entryPoint (dcC3 gC3.entryPoint)
      = (11, 2) := by decide
  rw [hnav] at h
  have h2 : SpecDescend gC3 dcC3 1 (10, 3) (11, 2) := h
  cases h2 with
  | level l s mid out hlev hrest =>
    cases hrest with
    | base _ =>
      have hfin := specLevel_final hlev 12 (by decide)
      exact hfin (by decide)

theorem scanNbrs_spec (dc : NodeId → Dist) :
    ∀ (ns : List NodeId) (ep : NodeId) (d : Dist) (fc : Bool),
      (∀ m ∈ ns, (scanNbrs dc ns ep d fc).2.1 ≤ dc m)
      ∧ (scanNbrs dc ns ep d fc).2.1 ≤ d
      ∧ (scanNbrs dc ns ep d fc = (ep, d, fc) ∧ (∀ m ∈ ns, ¬ dc m < d)
         ∨ ((scanNbrs dc ns ep d fc).1 ∈ ns
            ∧ (scanNbrs dc ns ep d fc).2.1 = dc (scanNbrs dc ns ep d fc).1
            ∧ (scanNbrs dc ns ep d fc).2.1 < d
            ∧ (scanNbrs dc ns ep d fc).2.2 = true)) := by
  intro ns
  induction ns with
  | nil =>
    intro ep d fc
    exact ⟨by simp, le_refl d, Or.inl ⟨rfl, by simp⟩⟩
  | cons n rest ih =>
    intro ep d fc
    by_cases hlt : dc n < d
    · have hred : scanNbrs dc (n :: rest) ep d fc = scanNbrs dc rest n (dc n) true := by
        simp [scanNbrs, hlt]
      have hs := ih n (dc n) true
      rw [hred]
      refine ⟨?_, le_trans hs.2.1 (le_of_lt hlt), ?_⟩
      · intro m hm
        rcases List.mem_cons.mp hm with rfl | hm2
        · exact hs.2.1
        · exact hs.1 m hm2
      · rcases hs.2.2 with ⟨heq, _⟩ | ⟨hmem, hdc, hlt2, hfc⟩
        · rw [heq]
          exact Or.inr ⟨List.mem_cons_self n rest, rfl, hlt, rfl⟩
        · exact Or.inr ⟨List.mem_cons_of_mem n hmem, hdc, lt_trans hlt2 hlt, hfc⟩
    · have hred : scanNbrs dc (n :: rest) ep d fc = scanNbrs dc rest ep d fc := by
        simp [scanNbrs, hlt]
      have hs := ih ep d fc
      rw [hred]
      refine ⟨?_, hs.2.1, ?_⟩
      · intro m hm
        rcases List.mem_cons.mp hm with rfl | hm2
        · exact le_trans hs.2.1 (not_lt.mp hlt)
        · exact hs.1 m hm2
      · rcases hs.2.2 with ⟨heq, hno⟩ | ⟨hmem, hdc, hlt2, hfc⟩
        · refine Or.inl ⟨heq, ?_⟩
          intro m hm
          rcases List.mem_cons.mp hm with rfl | hm2
          · exact hlt
          · exact hno m hm2
        · exact Or.inr ⟨List.mem_cons_of_mem n hmem, hdc, hlt2, hfc⟩

/-- C3 as amended: the descent loop of adaptive_search satisfies the
single-scan-per-level contract CodeDescend — at most one move per
level, to a strictly closer neighbour of minimal distance among the
scanned list, with the whole descent ending at the first level whose
neighbour list is empty, whose vector fetch fails, or which offers no
strictly closer neighbour; ties never move. -/
theorem omega_c3_amended (g : Graph) (dc : NodeId → Dist) :
    ∀ (l : Nat) (ep : NodeId) (d : Dist),
      CodeDescend g dc l (ep, d) (navigate g dc l ep d) := by
  intro l
  induction l with
  | zero => intro ep d; exact CodeDescend.base (ep, d)
  | succ l ih =>
    intro ep d
    by_cases hns : g.nbrs (l + 1) ep = []
    · have hnav : navigate g dc (l + 1) ep d = (ep, d) := by simp [navigate, hns]
      rw [hnav]; exact CodeDescend.stopEmpty l ep d hns
    · by_cases hf : g.fetchOk (g.nbrs (l + 1) ep) = false
      · have hnav : navigate g dc (l + 1) ep d = (ep, d) := by simp [navigate, hns, hf]
        rw [hnav]; exact CodeDescend.stopFetch l ep d hns hf
      · rcases hrs : scanNbrs dc (g.nbrs (l + 1) ep) ep d false with ⟨ep2, d2, fc⟩
        have hsc := scanNbrs_spec dc (g.nbrs (l + 1) ep) ep d false
        rw [hrs] at hsc
        have hnav : navigate g dc (l + 1) ep d
            = if fc then navigate g dc l ep2 d2 else (ep, d) := by
          simp [navigate, hns, hf, hrs]
        rcases hsc.2.2 with ⟨heq, hno⟩ | ⟨hmem, hdc, hlt, hfc⟩
        · have hfcf : fc = false := congrArg (fun t => t.2.2) heq
          rw [hnav, hfcf]
          simp only [Bool.false_eq_true, if_false]
          exact CodeDescend.stopNoImp l ep d hno
        · have hfct : fc = true := hfc
          rw [hnav, hfct]
          simp only [if_true]
          have hmem2 : ep2 ∈ g.nbrs (l + 1) ep := hmem
          have hdc2 : d2 = dc ep2 := hdc
          rw [hdc2]
          have hlt3 : dc ep2 < d := by rw [← hdc2]; exact hlt
          have hmin3 : ∀ x ∈ g.nbrs (l + 1) ep, dc ep2 ≤ dc x := by
            intro x hx; rw [← hdc2]; exact hsc.1 x hx
          exact CodeDescend.move l ep d ep2 _ hmem2 hlt3 hmin3 (ih ep2 (dc ep2))

/-- C4 counterexample: on the concrete graph gC4 the batched vector
fetch of the layer-0 neighbours of the entry node fails, the loop
breaks, and adaptive_search returns status 0 (success) with the
partial result accumulated so far, not a storage error. -/
theorem omega_c4_counterexample :
    (adaptiveSearch trivPred (some ()) (0, []) gC4 dcC4 2 2 10).1 = 0
    ∧ Event.fetchVec [2, 3] false ∈ (adaptiveSearch trivPred (some ()) (0, []) gC4 dcC4 2 2 10).2.2
    ∧ (adaptiveSearch trivPred (some ()) (0, []) gC4 dcC4 2 2 10).2.1 = [(1, 1)] := by
  refine ⟨by decide, by decide, by decide⟩

/-- C4 as amended: a failed batched vector fetch does not abort the
query with a storage error — adaptive_search always returns status 0
once the per-query OMEGA context exists; a fetch failure during the
upper-layer descent merely ends the descent at the current node, and a
fetch failure in the layer-0 beam loop merely ends the loop (no further
iteration) with the topk heap and lowerBound intact, so the accumulated
results are returned with success. -/
theorem omega_c4_amended {σ : Type} (P : Predictor σ) (g : Graph) (dc : NodeId → Dist)
    (ef lim count fuel : Nat) (om0 : σ) (st : BeamState σ) (n : NodeId) (d : Dist)
    (rest : List (NodeId × Dist)) (l : Nat) (ep : NodeId) (dd : Dist)
    (b : Int × List (NodeId × Dist))
    (hc : st.cands = (n, d) :: rest)
    (hstop : (decide (st.lb < d) && decide (ef ≤ st.topk.length)) = false)
    (hpred : P.shouldPredict st.om = false)
    (hns : g.nbrs 0 n ≠ [])
    (hunv : (markScan st.visited (g.nbrs 0 n)).1 ≠ [])
    (hfail : g.fetchOk ((markScan st.visited (g.nbrs 0 n)).1) = false)
    (hup : g.nbrs (l + 1) ep ≠ [])
    (hupf : g.fetchOk (g.nbrs (l + 1) ep) = false) :
    (adaptiveSearch P (some om0) b g dc ef count fuel).1 = 0
    ∧ navigate g dc (l + 1) ep dd = (ep, dd)
    ∧ (beamStep P g dc ef lim st).st.topk = st.topk
    ∧ (beamStep P g dc ef lim st).st.lb = st.lb
    ∧ ∀ st2, beamStep P g dc ef lim st ≠ StepRes.more st2 := by
  refine ⟨?_, ?_, ?_, ?_, ?_⟩
  · by_cases hE : g.entryPoint = kInvalidNodeId
    · simp [adaptiveSearch, hE]
    · simp [adaptiveSearch, hE]
  · simp [navigate, hup, hupf]
  · simp [beamStep, hc, hstop, beamExpand, hpred, hns, hunv, hfail, StepRes.st]
  · simp [beamStep, hc, hstop, beamExpand, hpred, hns, hunv, hfail, StepRes.st]
  · intro st2
    simp [beamStep, hc, hstop, beamExpand, hpred, hns, hunv, hfail]

theorem omega_c4_amended_witness :
    (stC4.cands = ((1 : NodeId), (1 : Dist)) :: []
      ∧ (decide (stC4.lb < (1 : Dist)) && decide (2 ≤ stC4.topk.length)) = false
      ∧ trivPred.shouldPredict stC4.om = false
      ∧ gC4.nbrs 0 1 ≠ []
      ∧ (markScan stC4.visited (gC4.nbrs 0 1)).1 ≠ []
      ∧ gC4.fetchOk ((markScan stC4.visited (gC4.nbrs 0 1)).1) = false
      ∧ gC4.nbrs (0 + 1) 5 ≠ []
      ∧ gC4.fetchOk (gC4.nbrs (0 + 1) 5) = false)
    ∧ ((adaptiveSearch trivPred (some ()) (0, []) gC4 dcC4 2 2 10).1 = 0
      ∧ navigate gC4 dcC4 (0 + 1) 5 7 = (5, 7)
      ∧ (beamStep trivPred gC4 dcC4 2 2 stC4).st.topk = stC4.topk
      ∧ (beamStep trivPred gC4 dcC4 2 2 stC4).st.lb = stC4.lb
      ∧ ∀ st2, beamStep trivPred gC4 dcC4 2 2 stC4 ≠ StepRes.more st2) :=
  ⟨⟨by decide, by decide, by decide, by decide, by decide, by decide, by decide, by decide⟩,
    omega_c4_amended trivPred gC4 dcC4 2 2 2 10 () stC4 1 1 [] 0 5 7 (0, [])
      (by decide) (by decide) (by decide) (by decide) (by decide) (by decide)
      (by decide) (by decide)⟩

theorem mem_tInsert {x z : NodeId × Dist} {t : List (NodeId × Dist)}
    (h : z ∈ tInsert x t) : z = x ∨ z ∈ t := by
  induction t with
  | nil => simpa [tInsert] using h
  | cons y ys ih =>
    by_cases hc : y.2 < x.2
    · simp only [tInsert, if_pos hc] at h
      rcases List.mem_cons.mp h with rfl | h2
      · exact Or.inl rfl
      · exact Or.inr h2
    · simp only [tInsert, if_neg hc] at h
      rcases List.mem_cons.mp h with rfl | h2
      · exact Or.inr (List.mem_cons_self _ _)
      · rcases ih h2 with h3 | h3
        · exact Or.inl h3
        · exact Or.inr (List.mem_cons_of_mem _ h3)

theorem tInsert_sorted {x : NodeId × Dist} {t : List (NodeId × Dist)}
    (h : DescSorted t) : DescSorted (tInsert x t) := by
  induction t with
  | nil => simp [tInsert]
  | cons y ys ih =>
    rcases List.pairwise_cons.mp h with ⟨hy, hys⟩
    by_cases hc : y.2 < x.2
    · simp only [tInsert, if_pos hc]
      refine List.pairwise_cons.mpr ⟨?_, h⟩
      intro z hz
      rcases List.mem_cons.mp hz with rfl | h2
      · exact le_of_lt hc
      · exact le_trans (hy z h2) (le_of_lt hc)
    · simp only [tInsert, if_neg hc]
      refine List.pairwise_cons.mpr ⟨?_, ih hys⟩
      intro z hz
      rcases mem_tInsert hz with rfl | h2
      · exact not_lt.mp hc
      · exact hy z h2

theorem tEmplace_sorted {lim : Nat} {x : NodeId × Dist} {t : List (NodeId × Dist)}
    (h : DescSorted t) : DescSorted (tEmplace lim x t) := by
  by_cases hl : t.length < lim
  · simp only [tEmplace, if_pos hl]
    exact tInsert_sorted h
  · cases t with
    | nil => simp only [tEmplace, if_neg hl]; exact h
    | cons y ys =>
      rcases List.pairwise_cons.mp h with ⟨hy, hys⟩
      by_cases hc : y.2 < x.2
      · simp only [tEmplace, if_neg hl, if_pos hc]
        exact h
      · simp only [tEmplace, if_neg hl, if_neg hc]
        exact tInsert_sorted hys

theorem descSorted_drop {t : List (NodeId × Dist)} (h : DescSorted t) (k : Nat) :
    DescSorted (t.drop k) :=
  List.Pairwise.sublist (List.drop_sublist k t) h

theorem maxDist_of_sorted {x : NodeId × Dist} {xs : List (NodeId × Dist)}
    (h : DescSorted (x :: xs)) : maxDist (x :: xs) = x.2 := by
  induction xs generalizing x with
  | nil => rfl
  | cons y ys ih =>
    rcases List.pairwise_cons.mp h with ⟨hy, hys⟩
    have h2 : maxDist (y :: ys) = y.2 := ih hys
    show max x.2 (maxDist (y :: ys)) = x.2
    rw [h2]
    exact max_eq_left (hy y (List.mem_cons_self y ys))

theorem lb_update_eq_maxDist {t2 : List (NodeId × Dist)} (hs : DescSorted t2) (ef : Nat)
    (hef : 1 ≤ ef) (hlen : ef ≤ t2.length) (lb1 : Dist) :
    (if t2 ≠ [] ∧ ef ≤ t2.length then (t2.headD (0, 0)).2 else lb1) = maxDist t2 := by
  have hne : t2 ≠ [] := by
    intro hnil
    rw [hnil] at hlen
    simp at hlen
    omega
  rw [if_pos ⟨hne, hlen⟩]
  cases t2 with
  | nil => exact absurd rfl hne
  | cons z zs => exact (maxDist_of_sorted hs).symm

theorem procNbr_inv {σ : Type} {P : Predictor σ} {dc : NodeId → Dist} {ef lim : Nat}
    {st : BeamState σ} (n : NodeId) (hef : 1 ≤ ef) (h : TopkInv ef st) :
    TopkInv ef (procNbr P dc ef lim st n) := by
  rcases h with ⟨hsort, hlb⟩
  simp only [procNbr]
  split
  · refine ⟨descSorted_drop (tEmplace_sorted hsort) _, ?_⟩
    intro hlen
    exact lb_update_eq_maxDist (descSorted_drop (tEmplace_sorted hsort) _) ef hef hlen _
  · exact ⟨hsort, hlb⟩

theorem foldl_procNbr_inv {σ : Type} {P : Predictor σ} {dc : NodeId → Dist} {ef lim : Nat}
    (hef : 1 ≤ ef) :
    ∀ (us : List NodeId) (st : BeamState σ), TopkInv ef st →
      TopkInv ef (us.foldl (procNbr P dc ef lim) st) := by
  intro us
  induction us with
  | nil => intro st h; exact h
  | cons u us ih => intro st h; exact ih _ (procNbr_inv u hef h)

theorem beamExpand_more_inv {σ : Type} {P : Predictor σ} {g : Graph} {dc : NodeId → Dist}
    {ef lim : Nat} {st t : BeamState σ} {n : NodeId} {rest : List (NodeId × Dist)}
    (hef : 1 ≤ ef) (h : TopkInv ef st)
    (hres : beamExpand P g dc ef lim st n rest = StepRes.more t) : TopkInv ef t := by
  simp only [beamExpand] at hres
  split at hres
  · cases hres
    exact ⟨h.1, h.2⟩
  · split at hres
    · cases hres
      exact ⟨h.1, h.2⟩
    · split at hres
      · cases hres
        exact foldl_procNbr_inv hef _ _ ⟨h.1, h.2⟩
      · cases hres

theorem beamStep_more_inv {σ : Type} {P : Predictor σ} {g : Graph} {dc : NodeId → Dist}
    {ef lim : Nat} {s t : BeamState σ} (hef : 1 ≤ ef) (h : TopkInv ef s)
    (hres : beamStep P g dc ef lim s = StepRes.more t) : TopkInv ef t := by
  rcases hc : s.cands with _ | ⟨⟨n, d⟩, rest⟩
  · simp only [beamStep, hc] at hres
    cases hres
  · simp only [beamStep, hc] at hres
    split at hres
    · cases hres
    · split at hres
      · split at hres
        · cases hres
        · refine beamExpand_more_inv hef ?_ hres
          exact ⟨h.1, h.2⟩
      · refine beamExpand_more_inv hef ?_ hres
        exact ⟨h.1, h.2⟩

theorem beamReach_inv {σ : Type} {P : Predictor σ} {g : Graph} {dc : NodeId → Dist}
    {ef lim : Nat} (hef : 1 ≤ ef) {s t : BeamState σ} (h : TopkInv ef s)
    (hr : BeamReach P g dc ef lim s t) : TopkInv ef t := by
  induction hr with
  | refl => exact h
  | tail hab hbc ih => exact beamStep_more_inv hef ih hbc

theorem initBeam_inv {σ : Type} (om : σ) (ep : NodeId) (d : Dist) (ef : Nat) :
    TopkInv ef (initBeam om ep d) := by
  constructor
  · simp [initBeam]
  · intro _; rfl

theorem cInsert_length (x : NodeId × Dist) (c : List (NodeId × Dist)) :
    (cInsert x c).length = c.length + 1 := by
  induction c with
  | nil => rfl
  | cons y ys ih => by_cases h : x.2 < y.2 <;> simp [cInsert, h, ih]

theorem procNbr_cands {σ : Type} (P : Predictor σ) (dc : NodeId → Dist) (ef lim : Nat)
    (st : BeamState σ) (m : NodeId) :
    (procNbr P dc ef lim st m).cands ≠ st.cands ↔
      (st.topk.length < ef ∨ dc m < st.lb) := by
  by_cases hin : (decide (st.topk.length < ef) || decide (dc m < st.lb)) = true
  · simp only [procNbr]
    rw [if_pos hin]
    simp only [Bool.or_eq_true, decide_eq_true_eq] at hin
    constructor
    · intro _
      exact hin
    · intro _
      show cInsert (m, dc m) st.cands ≠ st.cands
      intro hEq
      have hL := congrArg List.length hEq
      rw [cInsert_length] at hL
      omega
  · simp only [procNbr]
    rw [if_neg hin]
    simp only [Bool.or_eq_true, decide_eq_true_eq, not_or] at hin
    constructor
    · intro hne
      exact absurd rfl hne
    · intro hor
      rcases hor with h1 | h1
      · exact absurd h1 hin.1
      · exact absurd h1 hin.2

/-- C5: throughout the layer-0 beam loop (every state reachable from the
seeded initial state), whenever the topk heap holds at least ef entries
lowerBound equals the worst (largest) stored distance — in particular at
every evaluation of the frontier stopping test; a newly scored neighbour
is inserted into both heaps iff the heap is under-full or its distance
beats lowerBound; and after the insert-and-evict step the invariant is
re-established, i.e. lowerBound is updated to the new worst of topk. -/
theorem omega_c5_lower_bound_invariant {σ : Type} (P : Predictor σ) (g : Graph)
    (dc : NodeId → Dist) (ef lim : Nat) (om0 : σ) (ep : NodeId) (d : Dist)
    (st : BeamState σ) (hef : 1 ≤ ef)
    (hreach : BeamReach P g dc ef lim (initBeam om0 ep d) st) :
    (ef ≤ st.topk.length → st.lb = maxDist st.topk)
    ∧ ∀ m : NodeId,
        ((procNbr P dc ef lim st m).cands ≠ st.cands ↔
          (st.topk.length < ef ∨ dc m < st.lb))
        ∧ (ef ≤ (procNbr P dc ef lim st m).topk.length →
            (procNbr P dc ef lim st m).lb = maxDist (procNbr P dc ef lim st m).topk) := by
  have hinv := beamReach_inv hef (initBeam_inv om0 ep d ef) hreach
  exact ⟨hinv.2, fun m => ⟨procNbr_cands P dc ef lim st m, (procNbr_inv m hef hinv).2⟩⟩

theorem omega_c5_witness :
    (1 ≤ 1 ∧ BeamReach trivPred gEmpty dc0 1 1 (initBeam () 0 0) (initBeam () 0 0))
    ∧ ((1 ≤ (initBeam () 0 0 : BeamState Unit).topk.length →
        (initBeam () 0 0 : BeamState Unit).lb = maxDist (initBeam () 0 0 : BeamState Unit).topk)
      ∧ ∀ m : NodeId,
          ((procNbr trivPred dc0 1 1 (initBeam () 0 0) m).cands
              ≠ (initBeam () 0 0 : BeamState Unit).cands ↔
            ((initBeam () 0 0 : BeamState Unit).topk.length < 1
              ∨ dc0 m < (initBeam () 0 0 : BeamState Unit).lb))
          ∧ (1 ≤ (procNbr trivPred dc0 1 1 (initBeam () 0 0) m).topk.length →
              (procNbr trivPred dc0 1 1 (initBeam () 0 0) m).lb
                = maxDist (procNbr trivPred dc0 1 1 (initBeam () 0 0) m).topk)) :=
  ⟨⟨le_refl 1, Relation.ReflTransGen.refl⟩,
    omega_c5_lower_bound_invariant trivPred gEmpty dc0 1 1 () 0 0 (initBeam () 0 0)
      (le_refl 1) Relation.ReflTransGen.refl⟩

theorem mem_of_head?_eq {α : Type _} {l : List α} {a : α} (h : l.head? = some a) : a ∈ l := by
  cases l with
  | nil => cases h
  | cons x xs =>
    have hx : x = a := by simpa using h
    subst hx
    exact List.mem_cons_self _ _

theorem mem_of_getLast?_eq {α : Type _} {l : List α} {a : α} (h : a ∈ l.getLast?) : a ∈ l := by
  rcases List.mem_getLast?_eq_getLast h with ⟨hne, rfl⟩
  exact List.getLast_mem hne

theorem pairOk_of_chunkHead {a e : Event} (he : ChunkHead e)
    (ha : ∀ n, a ≠ Event.popMin n) : PairOk a e := by
  refine ⟨?_, ?_⟩
  · cases e with
    | stopTest b => trivial
    | distStart d => trivial
    | fetchVec i o => trivial
    | visitRep n d b => trivial
    | stopCall s => exact he.elim
    | predictCall p => exact he.elim
    | popMin n => exact he.elim
    | hop => exact he.elim
  · cases a with
    | popMin n => exact absurd rfl (ha n)
    | stopTest b => trivial
    | distStart d => trivial
    | fetchVec i o => trivial
    | visitRep n d b => trivial
    | stopCall s => trivial
    | predictCall p => trivial
    | hop => trivial

theorem traceInv_append {t c : List Event} (h : TraceInv t)
    (hc : List.Chain' PairOk c)
    (hhead : ∀ e, c.head? = some e → ChunkHead e)
    (hlast : ∀ n, c.getLast? ≠ some (Event.popMin n)) :
    TraceInv (t ++ c) := by
  obtain ⟨hch, hl, d0, r, ht⟩ := h
  refine ⟨?_, ?_, ?_⟩
  · rw [List.chain'_append]
    refine ⟨hch, hc, ?_⟩
    intro x hx y hy
    refine pairOk_of_chunkHead (hhead y (Option.mem_def.mp hy)) ?_
    intro n hxn
    rw [hxn] at hx
    exact hl n (Option.mem_def.mp hx)
  · rcases c with _ | ⟨e, es⟩
    · simpa using hl
    · intro n
      rw [List.getLast?_append_of_ne_nil t (List.cons_ne_nil e es)]
      exact hlast n
  · exact ⟨d0, r ++ c, by rw [ht, List.cons_append]⟩

theorem eq_of_head?_singleton {α : Type _} {a e : α} (h : ([a] : List α).head? = some e) :
    e = a := by
  simp at h
  exact h.symm

theorem chain'_visits {vs : List Event} (h : ∀ e ∈ vs, IsVisit e) :
    List.Chain' PairOk vs := by
  induction vs with
  | nil => exact List.chain'_nil
  | cons a vs2 ih =>
    cases vs2 with
    | nil => exact List.chain'_singleton a
    | cons b vs3 =>
      rw [List.chain'_cons]
      refine ⟨?_, ih ?_⟩
      · obtain ⟨n1, d1, b1, rfl⟩ := h a (by simp)
        obtain ⟨n2, d2, b2, rfl⟩ := h b (by simp)
        exact ⟨trivial, trivial⟩
      · intro e he
        exact h e (List.mem_cons_of_mem a he)

theorem foldl_procNbr_tr {σ : Type} (P : Predictor σ) (dc : NodeId → Dist) (ef lim : Nat) :
    ∀ (us : List NodeId) (st : BeamState σ),
      ∃ vs, (us.foldl (procNbr P dc ef lim) st).tr = st.tr ++ vs ∧ ∀ e ∈ vs, IsVisit e := by
  intro us
  induction us with
  | nil =>
    intro st
    exact ⟨[], by simp, by simp⟩
  | cons u us2 ih =>
    intro st
    obtain ⟨vs, hvs, hall⟩ := ih (procNbr P dc ef lim st u)
    have htr : (procNbr P dc ef lim st u).tr
        = st.tr ++ [Event.visitRep u (dc u)
            (decide (st.topk.length < ef) || decide (dc u < st.lb))] := by
      simp only [procNbr]
      split <;> rfl
    refine ⟨Event.visitRep u (dc u)
      (decide (st.topk.length < ef) || decide (dc u < st.lb)) :: vs, ?_, ?_⟩
    · rw [List.foldl_cons, hvs, htr]
      simp
    · intro e he
      rcases List.mem_cons.mp he with rfl | h2
      · exact ⟨u, dc u, _, rfl⟩
      · exact hall e h2

theorem foldl_procNbr_traceInv {σ : Type} (P : Predictor σ) (dc : NodeId → Dist)
    (ef lim : Nat) (us : List NodeId) (st : BeamState σ) (h : TraceInv st.tr) :
    TraceInv (us.foldl (procNbr P dc ef lim) st).tr := by
  obtain ⟨vs, hvs, hall⟩ := foldl_procNbr_tr P dc ef lim us st
  rw [hvs]
  refine traceInv_append h (chain'_visits hall) ?_ ?_
  · intro e he
    obtain ⟨n1, d1, b1, rfl⟩ := hall e (mem_of_head?_eq he)
    trivial
  · intro n2 hlast2
    obtain ⟨n1, d1, b1, heq⟩ := hall _ (mem_of_getLast?_eq (Option.mem_def.mpr hlast2))
    cases heq

theorem beamExpand_traceInv {σ : Type} (P : Predictor σ) (g : Graph) (dc : NodeId → Dist)
    (ef lim : Nat) (st : BeamState σ) (n : NodeId) (rest : List (NodeId × Dist))
    (hinv : TraceInv st.tr)
    (hlast : st.tr.getLast? = some (Event.predictCall false)
      ∨ st.tr.getLast? = some (Event.stopCall false)) :
    TraceInv ((beamExpand P g dc ef lim st n rest).st).tr := by
  have h1 : TraceInv (st.tr ++ [Event.popMin n, Event.hop]) := by
    obtain ⟨hch, hl, d0, r, ht⟩ := hinv
    refine ⟨?_, ?_, ?_⟩
    · rw [List.chain'_append]
      refine ⟨hch, ?_, ?_⟩
      · exact List.chain'_cons.mpr ⟨⟨⟨n, rfl⟩, rfl⟩, List.chain'_singleton _⟩
      · intro x hx y hy
        have hy1 : [Event.popMin n, Event.hop].head? = some y := Option.mem_def.mp hy
        have hy2 : y = Event.popMin n := by
          simp at hy1
          exact hy1.symm
        subst hy2
        have hx2 : st.tr.getLast? = some x := Option.mem_def.mp hx
        rcases hlast with hL | hL
        · have hx3 : x = Event.predictCall false := Option.some.inj (hx2.symm.trans hL)
          subst hx3
          exact ⟨Or.inl rfl, trivial⟩
        · have hx3 : x = Event.stopCall false := Option.some.inj (hx2.symm.trans hL)
          subst hx3
          exact ⟨Or.inr rfl, trivial⟩
    · intro n2
      rw [List.getLast?_append_of_ne_nil st.tr (by simp)]
      simp
    · exact ⟨d0, r ++ [Event.popMin n, Event.hop], by rw [ht, List.cons_append]⟩
  have h2 : TraceInv ((st.tr ++ [Event.popMin n, Event.hop])
      ++ [Event.fetchVec (markScan st.visited (g.nbrs 0 n)).1
            (g.fetchOk (markScan st.visited (g.nbrs 0 n)).1)]) := by
    refine traceInv_append h1 (List.chain'_singleton _) ?_ ?_
    · intro e he
      have he2 := eq_of_head?_singleton he
      subst he2
      trivial
    · intro n2
      simp
  simp only [beamExpand]
  split
  · exact h1
  · split
    · exact h1
    · split
      · exact foldl_procNbr_traceInv P dc ef lim _ _ h2
      · exact h2

theorem beamStep_traceInv {σ : Type} (P : Predictor σ) (g : Graph) (dc : NodeId → Dist)
    (ef lim : Nat) (st : BeamState σ) (h : TraceInv st.tr) :
    TraceInv ((beamStep P g dc ef lim st).st).tr := by
  rcases hc : st.cands with _ | ⟨⟨n, d⟩, rest⟩
  · simpa [beamStep, hc, StepRes.st] using h
  · simp only [beamStep, hc]
    split
    · refine traceInv_append h (List.chain'_singleton _) ?_ ?_
      · intro e he
        have he2 : e = Event.stopTest true := eq_of_head?_singleton he
        subst he2
        trivial
      · intro n2
        simp
    · split
      · rename_i hp
        rw [hp]
        split
        · rename_i hsp
          rw [hsp]
          show TraceInv (((st.tr ++ [Event.stopTest false]) ++ [Event.predictCall true])
            ++ [Event.stopCall true])
          have heq : ((st.tr ++ [Event.stopTest false]) ++ [Event.predictCall true])
              ++ [Event.stopCall true]
              = st.tr ++ [Event.stopTest false, Event.predictCall true, Event.stopCall true] := by
            simp
          rw [heq]
          refine traceInv_append h ?_ ?_ ?_
          · exact List.chain'_cons.mpr ⟨⟨rfl, trivial⟩,
              List.chain'_cons.mpr ⟨⟨rfl, trivial⟩, List.chain'_singleton _⟩⟩
          · intro e he
            have he2 : e = Event.stopTest false := eq_of_head?_singleton he
            subst he2
            trivial
          · intro n2
            simp
        · rename_i hsp
          have hspf : P.shouldStop st.om = false := Bool.eq_false_iff.mpr hsp
          rw [hspf]
          refine beamExpand_traceInv P g dc ef lim _ n rest ?_ ?_
          · show TraceInv (((st.tr ++ [Event.stopTest false]) ++ [Event.predictCall true])
              ++ [Event.stopCall false])
            have heq : ((st.tr ++ [Event.stopTest false]) ++ [Event.predictCall true])
                ++ [Event.stopCall false]
                = st.tr ++ [Event.stopTest false, Event.predictCall true,
                    Event.stopCall false] := by
              simp
            rw [heq]
            refine traceInv_append h ?_ ?_ ?_
            · exact List.chain'_cons.mpr ⟨⟨rfl, trivial⟩,
                List.chain'_cons.mpr ⟨⟨rfl, trivial⟩, List.chain'_singleton _⟩⟩
            · intro e he
              have he2 : e = Event.stopTest false := eq_of_head?_singleton he
              subst he2
              trivial
            · intro n2
              simp
          · refine Or.inr ?_
            show (((st.tr ++ [Event.stopTest false]) ++ [Event.predictCall true])
              ++ [Event.stopCall false]).getLast? = some (Event.stopCall false)
            rw [List.getLast?_append_of_ne_nil _ (by simp)]
            rfl
      · rename_i hp
        have hpf : P.shouldPredict st.om = false := Bool.eq_false_iff.mpr hp
        rw [hpf]
        refine beamExpand_traceInv P g dc ef lim _ n rest ?_ ?_
        · show TraceInv ((st.tr ++ [Event.stopTest false]) ++ [Event.predictCall false])
          have heq : (st.tr ++ [Event.stopTest false]) ++ [Event.predictCall false]
              = st.tr ++ [Event.stopTest false, Event.predictCall false] := by
            simp
          rw [heq]
          refine traceInv_append h ?_ ?_ ?_
          · exact List.chain'_cons.mpr ⟨⟨rfl, trivial⟩, List.chain'_singleton _⟩
          · intro e he
            have he2 : e = Event.stopTest false := eq_of_head?_singleton he
            subst he2
            trivial
          · intro n2
            simp
        · refine Or.inl ?_
          show ((st.tr ++ [Event.stopTest false]) ++ [Event.predictCall false]).getLast?
            = some (Event.predictCall false)
          rw [List.getLast?_append_of_ne_nil _ (by simp)]
          rfl

theorem beamRun_traceInv {σ : Type} (P : Predictor σ) (g : Graph) (dc : NodeId → Dist)
    (ef lim : Nat) :
    ∀ (fuel : Nat) (st : BeamState σ), TraceInv st.tr →
      TraceInv (beamRun P g dc ef lim fuel st).tr := by
  intro fuel
  induction fuel with
  | zero => intro st h; exact h
  | succ fuel ih =>
    intro st h
    have hstep := beamStep_traceInv P g dc ef lim st h
    cases hr : beamStep P g dc ef lim st with
    | more st2 =>
      rw [hr] at hstep
      simp only [beamRun, hr]
      exact ih st2 hstep
    | halt st2 =>
      rw [hr] at hstep
      simp only [beamRun, hr]
      exact hstep

/-- C6: in every adaptive search trace, should_stop is invoked only
immediately after a should_predict call that returned true; the OMEGA
early-stop check sits after a false standard HNSW stopping test and
immediately before the frontier pop of its iteration; and report_hop is
called exactly once immediately after each frontier pop (no trace ends
on an unanswered pop, and no trace begins with should_stop or a hop). -/
theorem omega_c6_trace_order {σ : Type} (P : Predictor σ) (create : Option σ)
    (b : Int × List (NodeId × Dist)) (g : Graph) (dc : NodeId → Dist)
    (ef count fuel : Nat) :
    TraceOk (adaptiveSearch P create b g dc ef count fuel).2.2 := by
  cases create with
  | none =>
    show TraceOk ([] : List Event)
    exact ⟨List.chain'_nil, by simp, by simp, by simp⟩
  | some om0 =>
    by_cases hE : g.entryPoint = kInvalidNodeId
    · simp only [adaptiveSearch]
      rw [if_pos hE]
      exact ⟨List.chain'_nil, by simp, by simp, by simp⟩
    · simp only [adaptiveSearch]
      rw [if_neg hE]
      have hinit : TraceInv (initBeam
          (P.reportVisit (P.setDistStart om0
            (navigate g dc g.maxLevel g.entryPoint (dc g.entryPoint)).2)
            (navigate g dc g.maxLevel g.entryPoint (dc g.entryPoint)).1
            (navigate g dc g.maxLevel g.entryPoint (dc g.entryPoint)).2 true)
          (navigate g dc g.maxLevel g.entryPoint (dc g.entryPoint)).1
          (navigate g dc g.maxLevel g.entryPoint (dc g.entryPoint)).2 : BeamState σ).tr := by
        refine ⟨?_, ?_, ?_⟩
        · exact List.chain'_cons.mpr ⟨⟨trivial, trivial⟩, List.chain'_singleton _⟩
        · intro n2
          simp [initBeam]
        · exact ⟨_, _, rfl⟩
      have hrun := beamRun_traceInv P g dc ef (max ef count) fuel _ hinit
      obtain ⟨hch, hl, d0, r, ht⟩ := hrun
      refine ⟨hch, hl, ?_, ?_⟩
      · intro s2
        rw [ht]
        simp
      · rw [ht]
        simp

theorem markScan_spec : ∀ (ns v : List NodeId),
    (markScan v ns).2.toFinset = v.toFinset ∪ (markScan v ns).1.toFinset
    ∧ (markScan v ns).1.Nodup
    ∧ (∀ x ∈ (markScan v ns).1, x ∉ v)
    ∧ (∀ x ∈ (markScan v ns).1, x ∈ ns) := by
  intro ns
  induction ns with
  | nil =>
    intro v
    simp [markScan]
  | cons n rest ih =>
    intro v
    by_cases hv : n ∈ v
    · simp only [markScan, if_pos hv]
      obtain ⟨h1, h2, h3, h4⟩ := ih v
      exact ⟨h1, h2, h3, fun x hx => List.mem_cons_of_mem n (h4 x hx)⟩
    · simp only [markScan, if_neg hv]
      obtain ⟨h1, h2, h3, h4⟩ := ih (n :: v)
      refine ⟨?_, ?_, ?_, ?_⟩
      · rw [h1]
        simp only [List.toFinset_cons]
        rw [Finset.insert_union, Finset.union_insert]
      · refine List.nodup_cons.mpr ⟨?_, h2⟩
        intro hn
        exact (h3 n hn) (List.mem_cons_self n v)
      · intro x hx
        rcases List.mem_cons.mp hx with rfl | hx2
        · exact hv
        · intro hxv
          exact (h3 x hx2) (List.mem_cons_of_mem n hxv)
      · intro x hx
        rcases List.mem_cons.mp hx with rfl | hx2
        · exact List.mem_cons_self _ _
        · exact List.mem_cons_of_mem n (h4 x hx2)

theorem procNbr_cands_length {σ : Type} (P : Predictor σ) (dc : NodeId → Dist)
    (ef lim : Nat) (st : BeamState σ) (n : NodeId) :
    (procNbr P dc ef lim st n).cands.length ≤ st.cands.length + 1 := by
  simp only [procNbr]
  split
  · show (cInsert (n, dc n) st.cands).length ≤ st.cands.length + 1
    rw [cInsert_length]
  · show st.cands.length ≤ st.cands.length + 1
    omega

theorem procNbr_visited {σ : Type} (P : Predictor σ) (dc : NodeId → Dist)
    (ef lim : Nat) (st : BeamState σ) (n : NodeId) :
    (procNbr P dc ef lim st n).visited = st.visited := by
  simp only [procNbr]
  split <;> rfl

theorem foldl_procNbr_cands_length {σ : Type} (P : Predictor σ) (dc : NodeId → Dist)
    (ef lim : Nat) :
    ∀ (us : List NodeId) (st : BeamState σ),
      (us.foldl (procNbr P dc ef lim) st).cands.length ≤ st.cands.length + us.length := by
  intro us
  induction us with
  | nil => intro st; simp
  | cons u us2 ih =>
    intro st
    have h1 := ih (procNbr P dc ef lim st u)
    have h2 := procNbr_cands_length P dc ef lim st u
    rw [List.foldl_cons]
    simp only [List.length_cons]
    omega

theorem foldl_procNbr_visited {σ : Type} (P : Predictor σ) (dc : NodeId → Dist)
    (ef lim : Nat) :
    ∀ (us : List NodeId) (st : BeamState σ),
      (us.foldl (procNbr P dc ef lim) st).visited = st.visited := by
  intro us
  induction us with
  | nil => intro st; rfl
  | cons u us2 ih =>
    intro st
    rw [List.foldl_cons, ih, procNbr_visited]

theorem foldl_procNbr_measure {σ : Type} (P : Predictor σ) (dc : NodeId → Dist)
    (ef lim : Nat) (nodes : Finset NodeId) (us : List NodeId) (st : BeamState σ) :
    beamMeasure nodes (us.foldl (procNbr P dc ef lim) st)
      ≤ beamMeasure nodes st + us.length := by
  have h1 := foldl_procNbr_cands_length P dc ef lim us st
  have h2 := foldl_procNbr_visited P dc ef lim us st
  simp only [beamMeasure, h2]
  omega

theorem beamExpand_measure {σ : Type} {P : Predictor σ} {g : Graph} {dc : NodeId → Dist}
    {ef lim : Nat} {nodes : Finset NodeId} (hwf : GraphWF g nodes)
    {st t : BeamState σ} {n : NodeId} {rest : List (NodeId × Dist)}
    (hres : beamExpand P g dc ef lim st n rest = StepRes.more t) :
    beamMeasure nodes t < 2 * (nodes \ st.visited.toFinset).card + rest.length + 1 := by
  simp only [beamExpand] at hres
  split at hres
  · cases hres
    show 2 * (nodes \ st.visited.toFinset).card + rest.length
        < 2 * (nodes \ st.visited.toFinset).card + rest.length + 1
    omega
  · split at hres
    · rename_i hu
      cases hres
      obtain ⟨h1, h2, h3, h4⟩ := markScan_spec (g.nbrs 0 n) st.visited
      show 2 * (nodes \ (markScan st.visited (g.nbrs 0 n)).2.toFinset).card + rest.length
          < 2 * (nodes \ st.visited.toFinset).card + rest.length + 1
      rw [h1, hu]
      simp only [List.toFinset_nil, Finset.union_empty]
      omega
    · split at hres
      · rename_i hu hok
        cases hres
        obtain ⟨h1, h2, h3, h4⟩ := markScan_spec (g.nbrs 0 n) st.visited
        refine lt_of_le_of_lt (foldl_procNbr_measure P dc ef lim nodes _ _) ?_
        show 2 * (nodes \ (markScan st.visited (g.nbrs 0 n)).2.toFinset).card
            + rest.length + (markScan st.visited (g.nbrs 0 n)).1.length
            < 2 * (nodes \ st.visited.toFinset).card + rest.length + 1
        rw [h1]
        have hsub : (markScan st.visited (g.nbrs 0 n)).1.toFinset
            ⊆ nodes \ st.visited.toFinset := by
          intro x hx
          rw [List.mem_toFinset] at hx
          rw [Finset.mem_sdiff]
          refine ⟨hwf 0 n x (h4 x hx), ?_⟩
          rw [List.mem_toFinset]
          exact h3 x hx
        have hdiff : nodes \ (st.visited.toFinset ∪ (markScan st.visited (g.nbrs 0 n)).1.toFinset)
            = (nodes \ st.visited.toFinset) \ (markScan st.visited (g.nbrs 0 n)).1.toFinset := by
          ext x
          simp [and_assoc]
        rw [hdiff, Finset.card_sdiff hsub]
        have hcard : (markScan st.visited (g.nbrs 0 n)).1.toFinset.card
            = (markScan st.visited (g.nbrs 0 n)).1.length := List.toFinset_card_of_nodup h2
        have hle : (markScan st.visited (g.nbrs 0 n)).1.toFinset.card
            ≤ (nodes \ st.visited.toFinset).card := Finset.card_le_card hsub
        have hpos : 0 < (markScan st.visited (g.nbrs 0 n)).1.length :=
          List.length_pos.mpr hu
        omega
      · cases hres

theorem beamStep_measure {σ : Type} {P : Predictor σ} {g : Graph} {dc : NodeId → Dist}
    {ef lim : Nat} {nodes : Finset NodeId} (hwf : GraphWF g nodes)
    {s t : BeamState σ} (hrel : BeamStepRel P g dc ef lim s t) :
    beamMeasure nodes t < beamMeasure nodes s := by
  unfold BeamStepRel at hrel
  rcases hc : s.cands with _ | ⟨⟨n, d⟩, rest⟩
  · simp only [beamStep, hc] at hrel
    cases hrel
  · simp only [beamStep, hc] at hrel
    split at hrel
    · cases hrel
    · have hms : beamMeasure nodes s
          = 2 * (nodes \ s.visited.toFinset).card + rest.length + 1 := by
        simp only [beamMeasure, hc, List.length_cons]
        omega
      rw [hms]
      split at hrel
      · split at hrel
        · cases hrel
        · have hx := beamExpand_measure hwf hrel
          exact hx
      · have hx := beamExpand_measure hwf hrel
        exact hx

theorem beamRun_stable {σ : Type} (P : Predictor σ) (g : Graph) (dc : NodeId → Dist)
    (ef lim : Nat) {nodes : Finset NodeId} (hwf : GraphWF g nodes) :
    ∀ (fuel : Nat) (st : BeamState σ), beamMeasure nodes st < fuel →
      beamRun P g dc ef lim (fuel + 1) st = beamRun P g dc ef lim fuel st := by
  intro fuel
  induction fuel with
  | zero =>
    intro st h
    exact absurd h (Nat.not_lt_zero _)
  | succ fuel ih =>
    intro st h
    cases hr : beamStep P g dc ef lim st with
    | halt st2 =>
      have e1 : beamRun P g dc ef lim (fuel + 1 + 1) st = st2 := by
        show (match beamStep P g dc ef lim st with
              | StepRes.halt st3 => st3
              | StepRes.more st3 => beamRun P g dc ef lim (fuel + 1) st3) = st2
        rw [hr]
      have e2 : beamRun P g dc ef lim (fuel + 1) st = st2 := by
        show (match beamStep P g dc ef lim st with
              | StepRes.halt st3 => st3
              | StepRes.more st3 => beamRun P g dc ef lim fuel st3) = st2
        rw [hr]
      rw [e1, e2]
    | more st2 =>
      have hm : beamMeasure nodes st2 < beamMeasure nodes st := beamStep_measure hwf hr
      have e1 : beamRun P g dc ef lim (fuel + 1 + 1) st
          = beamRun P g dc ef lim (fuel + 1) st2 := by
        show (match beamStep P g dc ef lim st with
              | StepRes.halt st3 => st3
              | StepRes.more st3 => beamRun P g dc ef lim (fuel + 1) st3)
            = beamRun P g dc ef lim (fuel + 1) st2
        rw [hr]
      have e2 : beamRun P g dc ef lim (fuel + 1) st = beamRun P g dc ef lim fuel st2 := by
        show (match beamStep P g dc ef lim st with
              | StepRes.halt st3 => st3
              | StepRes.more st3 => beamRun P g dc ef lim fuel st3)
            = beamRun P g dc ef lim fuel st2
        rw [hr]
      rw [e1, e2]
      exact ih st2 (by omega)

theorem beamRun_fuel_irrel {σ : Type} (P : Predictor σ) (g : Graph) (dc : NodeId → Dist)
    (ef lim : Nat) {nodes : Finset NodeId} (hwf : GraphWF g nodes) (st : BeamState σ)
    (f1 f2 : Nat) (hm : beamMeasure nodes st < f1) (hle : f1 ≤ f2) :
    beamRun P g dc ef lim f2 st = beamRun P g dc ef lim f1 st := by
  induction f2 with
  | zero =>
    have hf : f1 = 0 := by omega
    rw [hf]
  | succ f2 ih =>
    rcases Nat.lt_or_ge f1 (f2 + 1) with hlt | hge
    · have hs : beamRun P g dc ef lim (f2 + 1) st = beamRun P g dc ef lim f2 st :=
        beamRun_stable P g dc ef lim hwf f2 st (by omega)
      rw [hs]
      exact ih (by omega)
    · have hf : f1 = f2 + 1 := by omega
      rw [hf]

/-- The fuel-indexed model of the layer-0 while loop is exact: on a
well-formed graph over a finite node universe, the result of
adaptive_search does not depend on the fuel once it exceeds
2 * |nodes| + 1, so every fuel above the bound computes the true
fixpoint of the loop. -/
theorem adaptiveSearch_fuel_irrel {σ : Type} (P : Predictor σ) (create : Option σ)
    (b : Int × List (NodeId × Dist)) (g : Graph) (dc : NodeId → Dist)
    (ef count : Nat) {nodes : Finset NodeId} (hwf : GraphWF g nodes)
    (f1 f2 : Nat) (h1 : 2 * nodes.card + 1 < f1) (h2 : f1 ≤ f2) :
    adaptiveSearch P create b g dc ef count f2 = adaptiveSearch P create b g dc ef count f1 := by
  cases create with
  | none => rfl
  | some om0 =>
    by_cases hE : g.entryPoint = kInvalidNodeId
    · simp [adaptiveSearch, hE]
    · simp only [adaptiveSearch]
      rw [if_neg hE, if_neg hE]
      have hμ : beamMeasure nodes (initBeam
          (P.reportVisit (P.setDistStart om0
            (navigate g dc g.maxLevel g.entryPoint (dc g.entryPoint)).2)
            (navigate g dc g.maxLevel g.entryPoint (dc g.entryPoint)).1
            (navigate g dc g.maxLevel g.entryPoint (dc g.entryPoint)).2 true)
          (navigate g dc g.maxLevel g.entryPoint (dc g.entryPoint)).1
          (navigate g dc g.maxLevel g.entryPoint (dc g.entryPoint)).2 : BeamState σ) < f1 := by
        simp only [beamMeasure, initBeam]
        have hsub : nodes \ ([(navigate g dc g.maxLevel g.entryPoint
            (dc g.entryPoint)).1] : List NodeId).toFinset ⊆ nodes :=
          Finset.sdiff_subset
        have := Finset.card_le_card hsub
        simp only [List.length_cons, List.length_nil]
        omega
      rw [beamRun_fuel_irrel P g dc ef (max ef count) hwf _ f1 f2 hμ h2]

end ZvecOmega
